import Mathlib

/-
  Verification development for the spirit-box SDR scanner (src/main.py).

  The program has three parts that the claims talk about:
  * the sample-window assembler, the body of `Radio.stream` (lines 41-57),
  * the FM demodulation pipeline `Radio.decode_fm` (lines 59-78),
  * the scan loop in `main` (lines 128-136) together with `Radio.set_freq`
    (lines 37-39).

  The embedding follows the source.  Machine floats are modelled as exact
  reals, except at the normalization stage (line 77) where IEEE special
  values matter: there the scale factor and the scaled samples live in the
  type `FV`, which has explicit infinities and a nan value, with the IEEE
  rules for division by zero and for 0 * inf.  The external DSP routine
  scipy.signal.decimate is a collaborator whose internals are not part of
  this repository; it is modelled from the spec (see `decimateM` below).
-/

set_option maxHeartbeats 1000000

namespace SpiritBox

/-- Python int() on a rational: truncation toward zero. -/
def pyInt (q : ℚ) : ℤ := if 0 ≤ q then ⌊q⌋ else ⌈q⌉

/-- Ceiling division on naturals, the length of x[::q] for a length-a array. -/
def ceilDiv (a b : ℕ) : ℕ := (a + b - 1) / b

/-- Line 66: d = int(rate / bandwidth) with bandwidth = 200000.
For a nonnegative rate the float division followed by int() is floor. -/
def chanDecim (rate : ℕ) : ℕ := rate / 200000

/-- Line 68: rate2 = rate / d (Python float division, kept exact). -/
def rate2 (rate : ℕ) : ℚ := (rate : ℚ) / (chanDecim rate : ℚ)

/-- Line 75: the audio decimation factor int(rate2 / 44100). -/
def audioDecim (rate : ℕ) : ℕ := (⌊rate2 rate / 44100⌋).toNat

/-- The sample rate of the PCM buffer decode_fm returns: rate2 divided by
the audio decimation factor. -/
def outRate (rate : ℕ) : ℚ := rate2 rate / (audioDecim rate : ℚ)

/-- Line 121: pygame.mixer.init(44100, -16, 1) - the audio sink rate. -/
def mixerRate : ℕ := 44100

/-- Lines 44-46: n = int(seconds * rate); n = n - (n % 1024). -/
def mkN (seconds : ℚ) (rate : ℕ) : ℕ :=
  (⌊seconds * (rate : ℚ)⌋).toNat - (⌊seconds * (rate : ℚ)⌋).toNat % 1024

/-- The output length of the decode chain: decimate by d1 (length becomes
ceil(n/d1)), polar discriminator (one less), decimate by d2. -/
def outLen (n d1 d2 : ℕ) : ℕ := ceilDiv (ceilDiv n d1 - 1) d2

/-- The window assembler, lines 47-57 of Radio.stream: accumulate each
arriving chunk into the carry buffer b; once b holds at least n samples,
yield b[:n] and keep b[n:].  At most one window is taken per arriving
chunk, exactly as in the source loop.  Returns the yielded windows and the
final carry buffer. -/
def streamRun {α : Type} (n : ℕ) (carry : List α) (cs : List (List α)) :
    List (List α) × List α :=
  match cs with
  | [] => ([], carry)
  | x :: xs =>
    if (carry ++ x).length < n then streamRun n (carry ++ x) xs
    else
      ((carry ++ x).take n :: (streamRun n ((carry ++ x).drop n) xs).1,
       (streamRun n ((carry ++ x).drop n) xs).2)

/-- The windows yielded by Radio.stream on a given chunk arrival sequence
(the initial buffer b starts empty: b = None behaves as the empty list). -/
def windows {α : Type} (n : ℕ) (cs : List (List α)) : List (List α) :=
  (streamRun n [] cs).1

/-- Scan-loop state: the assembler carry buffer, with every sample tagged
by the center frequency in effect when its chunk arrived, and the number
of retunes issued so far. -/
structure ScanSt (F α : Type) where
  carry : List (F × α)
  fi : ℕ

/-- The scan loop of main (lines 128-136) combined with the assembler:
chunks arriving while the loop is between yields are captured at the
current frequency; each yielded window is followed by one set_freq call
(line 135), so samples of later chunks carry the next frequency tag. -/
def scanRun {F α : Type} (n : ℕ) (freqs : ℕ → F) (st : ScanSt F α)
    (cs : List (List α)) : List (List (F × α)) × ScanSt F α :=
  match cs with
  | [] => ([], st)
  | x :: xs =>
    if (st.carry ++ x.map (fun a => (freqs st.fi, a))).length < n then
      scanRun n freqs ⟨st.carry ++ x.map (fun a => (freqs st.fi, a)), st.fi⟩ xs
    else
      ((st.carry ++ x.map (fun a => (freqs st.fi, a))).take n ::
         (scanRun n freqs ⟨(st.carry ++ x.map (fun a => (freqs st.fi, a))).drop n, st.fi + 1⟩ xs).1,
       (scanRun n freqs ⟨(st.carry ++ x.map (fun a => (freqs st.fi, a))).drop n, st.fi + 1⟩ xs).2)

/-- The tuning state of the Radio class (lines 29-39): selected frequency
in MHz, sample rate in Hz, local-oscillator offset in Hz. -/
structure Radio where
  freq : ℚ
  rate : ℕ
  offset : ℕ

/-- Lines 37-39: set_freq records the selected frequency and commands the
hardware center frequency int(freq * 1000000) - offset (in Hz).  Returns
the updated radio and the commanded hardware frequency. -/
def Radio.set_freq (r : Radio) (f : ℚ) : Radio × ℤ :=
  ({ r with freq := f }, pyInt (f * 1000000) - (r.offset : ℤ))

/-- The Python exceptions that can escape decode_fm. -/
inductive PyErr where
  | zeroDivisionError : PyErr
  | valueError : PyErr
deriving DecidableEq

/-- IEEE float values as needed by the normalization stage: a finite real,
the two infinities, or nan. -/
inductive FV where
  | fin : ℝ → FV
  | pinf : FV
  | ninf : FV
  | nan : FV

/-- IEEE division of finite floats: a / 0 is nan for a = 0 and a signed
infinity otherwise; the finite quotient is kept exact. -/
noncomputable def fdiv (a b : ℝ) : FV :=
  if b = 0 then (if a = 0 then FV.nan else if 0 < a then FV.pinf else FV.ninf)
  else FV.fin (a / b)

/-- IEEE product of a finite float x with a value c: 0 * inf is nan, a
nonzero finite times an infinity is a signed infinity, nan propagates. -/
noncomputable def fvscale (x : ℝ) (c : FV) : FV :=
  match c with
  | FV.fin v => FV.fin (x * v)
  | FV.pinf => if x = 0 then FV.nan else if 0 < x then FV.pinf else FV.ninf
  | FV.ninf => if x = 0 then FV.nan else if 0 < x then FV.ninf else FV.pinf
  | FV.nan => FV.nan

/-- Truncation toward zero, the C float-to-int conversion rule. -/
noncomputable def rtrunc (x : ℝ) : ℤ := if 0 ≤ x then ⌊x⌋ else ⌈x⌉

/-- numpy astype("int16"): a C cast.  In range it truncates toward zero;
for nan, the infinities and out-of-range values the result is
platform-defined garbage, modelled as none. -/
noncomputable def toInt16 (v : FV) : Option ℤ :=
  match v with
  | FV.fin x => if -32768 ≤ rtrunc x ∧ rtrunc x ≤ 32767 then some (rtrunc x) else none
  | _ => none

/-- Line 77: np.max(np.abs(s)) on a nonempty buffer.  Folding max of the
absolute values with initial value 0 agrees with the numpy maximum because
all entries are nonnegative. -/
def maxAbs (s : List ℝ) : ℝ := (s.map (fun x => |x|)).foldr max 0

/-- Lines 76-78: s *= 10000 / np.max(np.abs(s)); return s.astype("int16").
There is no guard: the scale factor is an IEEE division that yields +inf
when the buffer is all zero. -/
noncomputable def normStage (s : List ℝ) : List (Option ℤ) :=
  (s.map (fun x => fvscale x (fdiv 10000 (maxAbs s)))).map toInt16

/-- Line 63: f = -1.0j * 2.0 * np.pi * self.offset / rate. -/
noncomputable def shiftFactor (offset rate : ℕ) : ℂ :=
  -Complex.I * 2 * (Real.pi : ℂ) * (offset : ℂ) / (rate : ℂ)

/-- Line 64 elementwise: multiply sample number i by exp(f * i). -/
noncomputable def shiftRun (f : ℂ) (i : ℕ) (s : List ℂ) : List ℂ :=
  match s with
  | [] => []
  | c :: cs => c * Complex.exp (f * (i : ℂ)) :: shiftRun f (i + 1) cs

/-- Line 64: s *= np.exp(f * np.arange(len(s))). -/
noncomputable def shiftStage (offset rate : ℕ) (s : List ℂ) : List ℂ :=
  shiftRun (shiftFactor offset rate) 0 s

/-- decode_fm mutates its argument in place at line 64 (s *= ...), and
every later stage allocates a fresh array, so this is the content of the
caller's input array after decode_fm returns. -/
noncomputable def inputAfter (rate offset : ℕ) (s : List ℂ) : List ℂ :=
  shiftStage offset rate s

/-- scipy.signal.lfilter with numerator [b0] and denominator [1, -p] and
zero initial state: y[i] = b0 * x[i] + p * y[i-1].  The first argument of
the recursion carries y[i-1]. -/
def lfilter1 {K : Type} [Field K] (b0 p : K) (yprev : K) (xs : List K) : List K :=
  match xs with
  | [] => []
  | x :: rest => (b0 * x + p * yprev) :: lfilter1 b0 p (b0 * x + p * yprev) rest

/-- x[::q] for q >= 1: keep one sample, skip q-1.  (The q = 0 case never
arises: the source raises ZeroDivisionError before slicing.) -/
def downsample {α : Type} (q : ℕ) (xs : List α) : List α :=
  match xs with
  | [] => []
  | a :: rest => a :: downsample q (rest.drop (q - 1))
termination_by xs.length
decreasing_by
  simp only [List.length_drop, List.length_cons]
  omega

/-- Modelled from the spec: the anti-alias low-pass inside
scipy.signal.decimate is external library code, described in the spec as
"an anti-alias-safe decimation filter (e.g., an IIR low-pass applied
before downsampling)".  It is modelled as a single-pole IIR low-pass with
pole exp(-pi / q), the cutoff at the post-decimation Nyquist frequency. -/
noncomputable def aaPole (q : ℕ) : ℝ := Real.exp (-Real.pi / (q : ℝ))

/-- The modelled anti-alias filter on complex samples. -/
noncomputable def aaFilterC (q : ℕ) (s : List ℂ) : List ℂ :=
  lfilter1 (1 - (aaPole q : ℂ)) ((aaPole q : ℂ)) 0 s

/-- The modelled anti-alias filter on real samples. -/
noncomputable def aaFilterR (q : ℕ) (s : List ℝ) : List ℝ :=
  lfilter1 (1 - aaPole q) (aaPole q) 0 s

/-- Modelled from the spec: scipy.signal.decimate on complex samples -
low-pass filter, then take every q-th sample.  Linearity and the output
length ceil(len/q) match the library routine. -/
noncomputable def decimateM (q : ℕ) (s : List ℂ) : List ℂ :=
  downsample q (aaFilterC q s)

/-- Modelled from the spec: scipy.signal.decimate on real samples. -/
noncomputable def decimateR (q : ℕ) (s : List ℝ) : List ℝ :=
  downsample q (aaFilterR q s)

/-- Line 70: the polar discriminator np.angle(s[1:] * np.conj(s[:-1])).
np.angle agrees with Complex.arg (radians in (-pi, pi], angle of 0 is 0). -/
noncomputable def polar (s : List ℂ) : List ℝ :=
  List.zipWith (fun a b => Complex.arg (a * (starRingEnd ℂ) b)) (s.drop 1) s

/-- Lines 71-73: the 75 microsecond de-emphasis filter
lfilter([1-x], [1, -x], s) with x = exp(-1 / (rate2 * 75e-6)). -/
noncomputable def deemph (r2 : ℝ) (s : List ℝ) : List ℝ :=
  lfilter1 (1 - Real.exp (-1 / (r2 * (75 / 1000000)))) (Real.exp (-1 / (r2 * (75 / 1000000)))) 0 s

/-- Stages 1-5 of decode_fm (lines 62-75): the demodulated audio signal
just before the normalization of line 77. -/
noncomputable def prenorm (rate offset : ℕ) (s : List ℂ) : List ℝ :=
  decimateR (audioDecim rate)
    (deemph ((rate : ℝ) / (chanDecim rate : ℝ))
      (polar (decimateM (chanDecim rate) (shiftStage offset rate s))))

/-- Radio.decode_fm, lines 59-78.  A channel decimation factor of 0
(rate below 200000) raises ZeroDivisionError inside scipy.signal.decimate
(0.8 / q in the filter design); likewise a zero audio factor at line 75.
np.max on an empty buffer at line 77 raises ValueError.  Otherwise the
normalized buffer is cast to int16 and returned. -/
noncomputable def decode_fm (rate offset : ℕ) (s : List ℂ) :
    Except PyErr (List (Option ℤ)) :=
  if chanDecim rate = 0 then Except.error PyErr.zeroDivisionError
  else if audioDecim rate = 0 then Except.error PyErr.zeroDivisionError
  else if (prenorm rate offset s).isEmpty then Except.error PyErr.valueError
  else Except.ok (normStage (prenorm rate offset s))

/-- The peak-amplitude contract of the spec: every output sample is a
defined 16-bit value of magnitude at most 10000, and some sample reaches
magnitude 10000 within a rounding tolerance of 1. -/
def peakOk (out : List (Option ℤ)) : Prop :=
  (∀ v ∈ out, ∃ k : ℤ, v = some k ∧ k.natAbs ≤ 10000) ∧
  (∃ v ∈ out, ∃ k : ℤ, v = some k ∧ 9999 ≤ k.natAbs ∧ k.natAbs ≤ 10001)

/-- The elementwise inverse of the shift stage: multiply sample number i
by exp(-(f * i)).  Used to build concrete inputs whose shifted image is a
prescribed sequence. -/
noncomputable def unshift (f : ℂ) (i : ℕ) (s : List ℂ) : List ℂ :=
  match s with
  | [] => []
  | c :: cs => c * Complex.exp (-(f * (i : ℂ))) :: unshift f (i + 1) cs

/-- A non-silent input window built so that the signal entering the polar
discriminator is the constant 1: its demodulated audio is identically
zero even though the input is not. -/
noncomputable def cexInput (k : ℕ) : List ℂ :=
  unshift (shiftFactor 250000 1200000) 0
    (((1 - (aaPole 6 : ℂ))⁻¹) :: List.replicate (k - 1) 1)

/-! Helper lemmas. -/

lemma ceilDiv_succ (q k : ℕ) (hq : 0 < q) :
    ceilDiv (k + 1) q = ceilDiv (k - (q - 1)) q + 1 := by
  unfold ceilDiv
  rcases le_or_lt (q - 1) k with h | h
  · have h1 : k - (q - 1) + q - 1 = k := by omega
    have h2 : k + 1 + q - 1 = k + q := by omega
    rw [h1, h2, Nat.add_div_right _ hq]
  · have h1 : k - (q - 1) = 0 := by omega
    have h2 : k + 1 + q - 1 = k + q := by omega
    rw [h1, h2, Nat.add_div_right _ hq]
    rw [Nat.div_eq_of_lt (by omega : k < q), Nat.div_eq_of_lt (by omega : 0 + q - 1 < q)]

lemma ceilDiv_pos (a b : ℕ) (hb : 0 < b) (ha : 0 < a) : 0 < ceilDiv a b := by
  unfold ceilDiv
  exact Nat.div_pos (by omega) hb

lemma two_le_ceilDiv (a b : ℕ) (hb : 0 < b) (ha : b < a) : 2 ≤ ceilDiv a b := by
  unfold ceilDiv
  rw [Nat.le_div_iff_mul_le hb]
  omega

lemma lfilter1_length {K : Type} [Field K] (b0 p : K) (yprev : K) (xs : List K) :
    (lfilter1 b0 p yprev xs).length = xs.length := by
  induction xs generalizing yprev with
  | nil => simp [lfilter1]
  | cons x rest ih => simp [lfilter1, ih]

lemma lfilter1_zero {K : Type} [Field K] (b0 p : K) (m : ℕ) :
    lfilter1 b0 p 0 (List.replicate m (0 : K)) = List.replicate m 0 := by
  induction m with
  | zero => simp [lfilter1]
  | succ k ih => simp [List.replicate_succ, lfilter1, ih]

lemma lfilter1_ones {K : Type} [Field K] (p : K) (m : ℕ) :
    lfilter1 (1 - p) p 1 (List.replicate m (1 : K)) = List.replicate m 1 := by
  induction m with
  | zero => simp [lfilter1]
  | succ k ih =>
    rw [List.replicate_succ, lfilter1]
    have h : (1 - p) * 1 + p * 1 = (1 : K) := by ring
    rw [h, ih]

lemma lfilter1_inv_head {K : Type} [Field K] (p : K) (hp : p ≠ 1) (m : ℕ) :
    lfilter1 (1 - p) p 0 ((1 - p)⁻¹ :: List.replicate m (1 : K)) =
      1 :: List.replicate m 1 := by
  rw [lfilter1]
  have hne : (1 : K) - p ≠ 0 := sub_ne_zero.mpr (Ne.symm hp)
  have h : (1 - p) * (1 - p)⁻¹ + p * 0 = (1 : K) := by
    field_simp
  rw [h, lfilter1_ones]

lemma downsample_length {α : Type} (q : ℕ) (hq : 0 < q) (xs : List α) :
    (downsample q xs).length = ceilDiv xs.length q := by
  generalize hn : xs.length = n
  induction n using Nat.strong_induction_on generalizing xs with
  | _ n ih =>
    match xs, hn with
    | [], rfl =>
      simp [downsample, ceilDiv, Nat.div_eq_of_lt (show q - 1 < q by omega)]
    | a :: rest, rfl =>
      rw [downsample]
      simp only [List.length_cons]
      have hdl : (rest.drop (q - 1)).length = rest.length - (q - 1) := by simp
      rw [ih (rest.length - (q - 1)) (by simp only [List.length_cons]; omega)
        (rest.drop (q - 1)) hdl]
      rw [ceilDiv_succ q rest.length hq]

lemma downsample_replicate {α : Type} (q : ℕ) (hq : 0 < q) (c : α) (m : ℕ) :
    downsample q (List.replicate m c) = List.replicate (ceilDiv m q) c := by
  induction m using Nat.strong_induction_on with
  | _ m ih =>
    match m with
    | 0 => simp [downsample, ceilDiv, Nat.div_eq_of_lt (show q - 1 < q by omega)]
    | Nat.succ k =>
      rw [List.replicate_succ, downsample, List.drop_replicate,
        ih (k - (q - 1)) (by omega), ceilDiv_succ q k hq, List.replicate_succ]

lemma shiftRun_length (f : ℂ) (i : ℕ) (s : List ℂ) :
    (shiftRun f i s).length = s.length := by
  induction s generalizing i with
  | nil => simp [shiftRun]
  | cons c cs ih => simp [shiftRun, ih]

lemma shiftRun_zero (f : ℂ) (i m : ℕ) :
    shiftRun f i (List.replicate m 0) = List.replicate m 0 := by
  induction m generalizing i with
  | zero => simp [shiftRun]
  | succ k ih => simp [List.replicate_succ, shiftRun, ih]

lemma shiftRun_unshift (f : ℂ) (i : ℕ) (s : List ℂ) :
    shiftRun f i (unshift f i s) = s := by
  induction s generalizing i with
  | nil => simp [unshift, shiftRun]
  | cons c cs ih =>
    rw [unshift, shiftRun, ih]
    rw [mul_assoc, ← Complex.exp_add]
    simp

lemma shiftFactor_eq (o r : ℕ) :
    shiftFactor o r = (((-(2 * Real.pi * o / r)) : ℝ) : ℂ) * Complex.I := by
  unfold shiftFactor
  push_cast
  ring

lemma shiftTerm_re (o r k : ℕ) : (shiftFactor o r * (k : ℂ)).re = 0 := by
  rw [shiftFactor_eq]
  have h : ((((-(2 * Real.pi * o / r)) : ℝ) : ℂ)) * Complex.I * (k : ℂ) =
      ((((-(2 * Real.pi * o / r)) * k : ℝ) : ℂ)) * Complex.I := by
    push_cast
    ring
  rw [h]
  simp [Complex.mul_re]

lemma shiftRun_abs (o r : ℕ) (i : ℕ) (s : List ℂ) :
    (shiftRun (shiftFactor o r) i s).map Complex.abs = s.map Complex.abs := by
  induction s generalizing i with
  | nil => simp [shiftRun]
  | cons c cs ih =>
    rw [shiftRun]
    simp only [List.map_cons, ih]
    rw [map_mul, Complex.abs_exp, shiftTerm_re, Real.exp_zero, mul_one]

lemma polar_length (s : List ℂ) : (polar s).length = s.length - 1 := by
  simp only [polar, List.length_zipWith, List.length_drop]
  exact min_eq_left (Nat.sub_le _ _)

lemma polar_replicate (m : ℕ) (c : ℂ) :
    polar (List.replicate m c) =
      List.replicate (m - 1) (Complex.arg (c * (starRingEnd ℂ) c)) := by
  rw [polar, List.drop_replicate, List.zipWith_replicate]
  rw [min_eq_left (Nat.sub_le _ _)]

lemma maxAbs_cons (a : ℝ) (s : List ℝ) : maxAbs (a :: s) = max |a| (maxAbs s) := rfl

lemma maxAbs_nonneg (s : List ℝ) : 0 ≤ maxAbs s := by
  induction s with
  | nil => simp [maxAbs]
  | cons a t ih => rw [maxAbs_cons]; exact le_trans ih (le_max_right _ _)

lemma le_maxAbs (s : List ℝ) (x : ℝ) (hx : x ∈ s) : |x| ≤ maxAbs s := by
  induction s with
  | nil => cases hx
  | cons a t ih =>
    rw [maxAbs_cons]
    rcases List.mem_cons.mp hx with h | h
    · subst h; exact le_max_left _ _
    · exact le_trans (ih h) (le_max_right _ _)

lemma maxAbs_attained (s : List ℝ) (h : s ≠ []) : ∃ x ∈ s, |x| = maxAbs s := by
  induction s with
  | nil => exact absurd rfl h
  | cons a t ih =>
    by_cases ht : t = []
    · subst ht
      refine ⟨a, List.mem_singleton_self a, ?_⟩
      rw [maxAbs_cons]
      simp [maxAbs, max_eq_left (abs_nonneg a)]
    · obtain ⟨x, hmem, hx⟩ := ih ht
      rw [maxAbs_cons]
      rcases le_total (maxAbs t) |a| with hle | hle
      · exact ⟨a, List.mem_cons_self a t, (max_eq_left hle).symm⟩
      · exact ⟨x, List.mem_cons_of_mem a hmem, by rw [hx]; exact (max_eq_right hle).symm⟩

lemma maxAbs_replicate_zero (m : ℕ) : maxAbs (List.replicate m 0) = 0 := by
  induction m with
  | zero => simp [maxAbs]
  | succ k ih => rw [List.replicate_succ, maxAbs_cons, ih]; simp

lemma fdiv_zero_pos : fdiv 10000 0 = FV.pinf := by
  norm_num [fdiv]

lemma normStage_length (s : List ℝ) : (normStage s).length = s.length := by
  simp [normStage]

lemma normStage_zero (m : ℕ) :
    normStage (List.replicate m 0) = List.replicate m none := by
  unfold normStage
  rw [maxAbs_replicate_zero, fdiv_zero_pos]
  simp [List.map_replicate, fvscale, toInt16]

lemma rtrunc_intCast (k : ℤ) : rtrunc (k : ℝ) = k := by
  unfold rtrunc
  split
  · exact Int.floor_intCast k
  · exact Int.ceil_intCast k

lemma fvscale_fin (x v : ℝ) : fvscale x (FV.fin v) = FV.fin (x * v) := rfl

lemma toInt16_fin (y : ℝ) :
    toInt16 (FV.fin y) =
      if -32768 ≤ rtrunc y ∧ rtrunc y ≤ 32767 then some (rtrunc y) else none := rfl

lemma rtrunc_le_of_le (x : ℝ) (B : ℤ) (hB : 0 ≤ B) (h : |x| ≤ (B : ℝ)) :
    -B ≤ rtrunc x ∧ rtrunc x ≤ B := by
  rw [abs_le] at h
  unfold rtrunc
  split
  · rename_i hx
    constructor
    · have h0 : (0 : ℤ) ≤ ⌊x⌋ := Int.floor_nonneg.mpr hx
      omega
    · calc ⌊x⌋ ≤ ⌊(B : ℝ)⌋ := Int.floor_le_floor h.2
        _ = B := Int.floor_intCast B
  · rename_i hx
    push_neg at hx
    constructor
    · calc -B = ⌈((-B : ℤ) : ℝ)⌉ := (Int.ceil_intCast _).symm
        _ ≤ ⌈x⌉ := Int.ceil_le_ceil (by push_cast; linarith [h.1])
    · have h0 : ⌈x⌉ ≤ 0 := Int.ceil_le.mpr (by push_cast; linarith)
      omega

lemma normStage_peak (s : List ℝ) (hne : s ≠ []) (hm : maxAbs s ≠ 0) :
    peakOk (normStage s) := by
  have hpos : 0 < maxAbs s := lt_of_le_of_ne (maxAbs_nonneg s) (Ne.symm hm)
  have hc : fdiv 10000 (maxAbs s) = FV.fin (10000 / maxAbs s) := by
    unfold fdiv
    rw [if_neg hm]
  have hval : ∀ x ∈ s, ∃ k : ℤ, toInt16 (fvscale x (fdiv 10000 (maxAbs s))) = some k ∧
      k.natAbs ≤ 10000 := by
    intro x hx
    rw [hc]
    have hb : |x * (10000 / maxAbs s)| ≤ (10000 : ℝ) := by
      rw [abs_mul, abs_div]
      rw [abs_of_pos hpos, abs_of_pos (by norm_num : (0:ℝ) < 10000)]
      calc |x| * (10000 / maxAbs s) ≤ maxAbs s * (10000 / maxAbs s) := by
            apply mul_le_mul_of_nonneg_right (le_maxAbs s x hx)
            positivity
        _ = 10000 := by field_simp
    obtain ⟨h1, h2⟩ := rtrunc_le_of_le _ 10000 (by norm_num) hb
    refine ⟨rtrunc (x * (10000 / maxAbs s)), ?_, by omega⟩
    rw [fvscale_fin, toInt16_fin, if_pos (by omega)]
  constructor
  · intro v hv
    simp only [normStage, List.map_map, List.mem_map] at hv
    obtain ⟨x, hx, hxv⟩ := hv
    obtain ⟨k, hk, hkb⟩ := hval x hx
    exact ⟨k, by rw [← hxv]; exact hk, hkb⟩
  · obtain ⟨x0, hx0, hx0m⟩ := maxAbs_attained s hne
    have hscale : x0 * (10000 / maxAbs s) = 10000 ∨ x0 * (10000 / maxAbs s) = -10000 := by
      rcases abs_eq (le_of_lt hpos) |>.mp hx0m with h | h
      · left; rw [h]; field_simp
      · right; rw [h]; field_simp; ring
    have hmem : toInt16 (fvscale x0 (fdiv 10000 (maxAbs s))) ∈ normStage s := by
      simp only [normStage, List.map_map, List.mem_map]
      exact ⟨x0, hx0, rfl⟩
    refine ⟨toInt16 (fvscale x0 (fdiv 10000 (maxAbs s))), hmem, ?_⟩
    rw [hc, fvscale_fin]
    rcases hscale with h | h
    · rw [h, toInt16_fin]
      have h10 : rtrunc ((10000 : ℝ)) = (10000 : ℤ) := by
        have h0 := rtrunc_intCast 10000
        push_cast at h0
        exact h0
      rw [h10, if_pos (by omega)]
      exact ⟨10000, rfl, by decide, by decide⟩
    · rw [h, toInt16_fin]
      have h10 : rtrunc ((-10000 : ℝ)) = (-10000 : ℤ) := by
        have h0 := rtrunc_intCast (-10000)
        push_cast at h0
        exact h0
      rw [h10, if_pos (by omega)]
      exact ⟨-10000, rfl, by decide, by decide⟩

lemma streamRun_lengths {α : Type} (n : ℕ) (cs : List (List α)) (carry : List α) :
    (streamRun n carry cs).1.map List.length =
      List.replicate (streamRun n carry cs).1.length n := by
  induction cs generalizing carry with
  | nil => simp [streamRun]
  | cons x xs ih =>
    rw [streamRun]
    split
    · exact ih _
    · rename_i h
      simp only [List.map_cons, List.length_cons, List.replicate_succ]
      rw [ih _]
      have : ((carry ++ x).take n).length = n := by
        simp only [List.length_take]
        omega
      rw [this]

lemma streamRun_conserve {α : Type} (n : ℕ) (cs : List (List α)) (carry : List α) :
    (streamRun n carry cs).1.flatten ++ (streamRun n carry cs).2 = carry ++ cs.flatten := by
  induction cs generalizing carry with
  | nil => simp [streamRun]
  | cons x xs ih =>
    rw [streamRun]
    split
    · rw [ih]
      simp [List.append_assoc]
    · simp only [List.flatten_cons]
      rw [List.append_assoc, ih]
      rw [← List.append_assoc, List.take_append_drop]
      simp [List.append_assoc]

lemma scanRun_retunes {F α : Type} (n : ℕ) (freqs : ℕ → F) (cs : List (List α))
    (st : ScanSt F α) :
    (scanRun n freqs st cs).2.fi = st.fi + (scanRun n freqs st cs).1.length := by
  induction cs generalizing st with
  | nil => simp [scanRun]
  | cons x xs ih =>
    rw [scanRun]
    split
    · rw [ih]
    · simp only [List.length_cons]
      rw [ih]
      simp only []
      omega

lemma aaPole_pos (q : ℕ) : 0 < aaPole q := Real.exp_pos _

lemma aaPole_lt_one (q : ℕ) (hq : 0 < q) : aaPole q < 1 := by
  unfold aaPole
  apply Real.exp_lt_one_iff.mpr
  have hπ := Real.pi_pos
  have hq0 : (0 : ℝ) < (q : ℝ) := by exact_mod_cast hq
  rw [neg_div]
  exact neg_neg_iff_pos.mpr (div_pos hπ hq0)

lemma aaPoleC_ne_one (q : ℕ) (hq : 0 < q) : ((aaPole q : ℝ) : ℂ) ≠ 1 := by
  intro h
  have h1 : aaPole q = 1 := by exact_mod_cast h
  exact absurd h1 (ne_of_lt (aaPole_lt_one q hq))

lemma prenorm_zero (rate offset k : ℕ) (h1 : 0 < chanDecim rate)
    (h2 : 0 < audioDecim rate) :
    prenorm rate offset (List.replicate k 0) =
      List.replicate (outLen k (chanDecim rate) (audioDecim rate)) 0 := by
  unfold prenorm
  rw [show shiftStage offset rate (List.replicate k 0) = List.replicate k 0 from
    shiftRun_zero _ 0 k]
  unfold decimateM aaFilterC
  rw [lfilter1_zero, downsample_replicate _ h1, polar_replicate]
  rw [show ((0 : ℂ) * (starRingEnd ℂ) 0) = 0 by ring, Complex.arg_zero]
  unfold deemph
  rw [lfilter1_zero]
  unfold decimateR aaFilterR
  rw [lfilter1_zero, downsample_replicate _ h2]
  rfl

lemma prenorm_length (rate offset : ℕ) (h1 : 0 < chanDecim rate)
    (h2 : 0 < audioDecim rate) (s : List ℂ) :
    (prenorm rate offset s).length =
      outLen s.length (chanDecim rate) (audioDecim rate) := by
  unfold prenorm decimateR aaFilterR
  rw [downsample_length _ h2, lfilter1_length]
  unfold deemph
  rw [lfilter1_length, polar_length]
  unfold decimateM aaFilterC shiftStage
  rw [downsample_length _ h1, lfilter1_length]
  rw [shiftRun_length]
  rfl

lemma outLen_pos (n d1 d2 : ℕ) (h1 : 0 < d1) (h2 : 0 < d2) (h3 : d1 < n) :
    0 < outLen n d1 d2 := by
  unfold outLen
  have hL1 : 2 ≤ ceilDiv n d1 := two_le_ceilDiv n d1 h1 h3
  exact ceilDiv_pos _ _ h2 (by omega)

lemma decode_fm_run (rate offset : ℕ) (s : List ℂ) (h1 : chanDecim rate ≠ 0)
    (h2 : audioDecim rate ≠ 0) (h3 : prenorm rate offset s ≠ []) :
    decode_fm rate offset s = Except.ok (normStage (prenorm rate offset s)) := by
  unfold decode_fm
  rw [if_neg h1, if_neg h2, if_neg (by simpa using h3)]

lemma decode_fm_zero_run (rate offset k : ℕ) (h1 : 0 < chanDecim rate)
    (h2 : 0 < audioDecim rate) (h3 : chanDecim rate < k) :
    decode_fm rate offset (List.replicate k 0) =
      Except.ok (List.replicate (outLen k (chanDecim rate) (audioDecim rate)) none) := by
  have hpn := prenorm_zero rate offset k h1 h2
  have hlen := outLen_pos k (chanDecim rate) (audioDecim rate) h1 h2 h3
  rw [decode_fm_run rate offset _ (by omega) (by omega)
    (by
      rw [hpn]
      intro hcon
      have hc2 := congrArg List.length hcon
      simp only [List.length_replicate, List.length_nil] at hc2
      omega)]
  rw [hpn, normStage_zero]

lemma exp_shiftFactor_ne_one : Complex.exp (shiftFactor 250000 1200000) ≠ 1 := by
  intro h
  obtain ⟨n, hn⟩ := Complex.exp_eq_one_iff.mp h
  rw [shiftFactor_eq] at hn
  have hI : (Complex.I : ℂ) ≠ 0 := Complex.I_ne_zero
  have h1 := mul_right_cancel₀ hI
    (hn.trans (by ring : (n : ℂ) * (2 * (Real.pi : ℂ) * Complex.I) =
      ((n : ℂ) * 2 * (Real.pi : ℂ)) * Complex.I))
  have h2 : (-(2 * Real.pi * 250000 / 1200000) : ℝ) = (n : ℝ) * 2 * Real.pi := by
    exact_mod_cast h1
  have h3 : (2 * Real.pi) * ((n : ℝ) + 250000 / 1200000) = 0 := by
    linear_combination -h2
  have h4 : ((n : ℝ) + 250000 / 1200000) = 0 :=
    (mul_eq_zero.mp h3).resolve_left (by positivity)
  have h5 : (n : ℝ) * 24 = -5 := by
    have hpi := Real.pi_pos
    nlinarith [h4]
  have h6 : (n * 24 : ℤ) = -5 := by exact_mod_cast h5
  omega

lemma streamRun_zero_n {α : Type} (cs : List (List α)) (carry : List α) :
    streamRun 0 carry cs = (List.replicate cs.length [], carry ++ cs.flatten) := by
  induction cs generalizing carry with
  | nil => simp [streamRun]
  | cons x xs ih =>
    rw [streamRun, if_neg (by omega)]
    simp [ih, List.replicate_succ, List.append_assoc]

lemma cexInput_shift :
    shiftStage 250000 1200000 (cexInput 1024) =
      ((1 - (aaPole 6 : ℂ))⁻¹) :: List.replicate 1023 1 := by
  unfold cexInput shiftStage
  rw [shiftRun_unshift]

lemma cexInput_prenorm :
    prenorm 1200000 250000 (cexInput 1024) = List.replicate 43 0 := by
  have hd1 : chanDecim 1200000 = 6 := by norm_num [chanDecim]
  have hd2 : audioDecim 1200000 = 4 := by
    norm_num [audioDecim, rate2, chanDecim]
    rfl
  unfold prenorm
  rw [cexInput_shift, hd1, hd2]
  unfold decimateM aaFilterC
  rw [lfilter1_inv_head _ (aaPoleC_ne_one 6 (by norm_num)) 1023]
  rw [show (1 : ℂ) :: List.replicate 1023 1 = List.replicate 1024 1 from by
    rw [← List.replicate_succ]]
  rw [downsample_replicate 6 (by norm_num)]
  rw [show ceilDiv 1024 6 = 171 from by norm_num [ceilDiv]]
  rw [polar_replicate]
  rw [show ((1 : ℂ) * (starRingEnd ℂ) 1) = 1 from by simp, Complex.arg_one]
  unfold deemph
  rw [show (171 - 1 : ℕ) = 170 from rfl]
  rw [lfilter1_zero]
  unfold decimateR aaFilterR
  rw [lfilter1_zero, downsample_replicate 4 (by norm_num)]
  rw [show ceilDiv 170 4 = 43 from by norm_num [ceilDiv]]

lemma cexInput_head_ne_zero : ((1 - (aaPole 6 : ℂ))⁻¹) ≠ 0 := by
  apply inv_ne_zero
  apply sub_ne_zero.mpr
  exact fun h => aaPoleC_ne_one 6 (by norm_num) h.symm

lemma scanRun_mix :
    (scanRun 1024 (fun i => i) (⟨[], 0⟩ : ScanSt ℕ Unit)
        [List.replicate 1536 (), List.replicate 1536 ()]).1 =
      [List.replicate 1024 ((0 : ℕ), ()),
       List.replicate 512 ((0 : ℕ), ()) ++ List.replicate 512 ((1 : ℕ), ())] := by
  rw [scanRun]
  rw [if_neg (by simp only [List.nil_append, List.length_map, List.length_replicate]; omega)]
  rw [scanRun]
  rw [if_neg (by
    simp only [List.length_append, List.length_drop, List.length_map, List.length_replicate,
      List.nil_append]
    omega)]
  rw [scanRun]
  simp only [List.map_replicate, List.nil_append, List.take_replicate, List.drop_replicate,
    List.take_append_eq_append_take, List.length_replicate]
  norm_num

lemma chanDecim_default : chanDecim 1200000 = 6 := by norm_num [chanDecim]

lemma audioDecim_default : audioDecim 1200000 = 4 := by
  norm_num [audioDecim, rate2, chanDecim]
  rfl

/-! Claim theorems. -/

/-- C1: the spec claims that after decimating by floor(rate2 / 44100) the
resulting sample rate rate2 / floor(rate2 / 44100) equals the fixed output
rate 44100 Hz that the audio sink is initialized with.  In fact at the
default rate 1200000 Hz the intermediate rate is 200000 Hz, the factor is
4, and the resulting rate is 50000 Hz, not the mixer rate 44100 Hz: the
code produces PCM at 50000 Hz and plays it on a 44100 Hz sink. -/
theorem c1_output_rate_not_44100 :
    outRate 1200000 = 50000 ∧ outRate 1200000 ≠ (mixerRate : ℚ) := by
  have heq : outRate 1200000 = 50000 := by
    rw [outRate, audioDecim_default, rate2, chanDecim_default]
    norm_num
  refine ⟨heq, ?_⟩
  rw [heq]
  norm_num [mixerRate]

/-- C2 counterexample: on the all-zero capture window of length 1024 at the
default configuration, the normalization stage does not skip scaling: the
scale divisor np.max(np.abs(s)) is 0, the IEEE quotient is +inf, every
scaled sample is 0 * inf = nan, and the int16 buffer decode_fm returns is
platform-defined garbage (none), not the claimed all-zero buffer. -/
theorem c2_silent_counterexample :
    decode_fm 1200000 250000 (List.replicate 1024 0) =
        Except.ok (List.replicate 43 none) ∧
      fdiv 10000 (maxAbs (prenorm 1200000 250000 (List.replicate 1024 0))) = FV.pinf ∧
      List.replicate 43 (none : Option ℤ) ≠ List.replicate 43 (some 0) := by
  refine ⟨?_, ?_, by decide⟩
  · rw [decode_fm_zero_run 1200000 250000 1024 (by rw [chanDecim_default]; omega)
      (by rw [audioDecim_default]; omega) (by rw [chanDecim_default]; omega)]
    rw [chanDecim_default, audioDecim_default]
    norm_num [outLen, ceilDiv]
  · rw [prenorm_zero 1200000 250000 1024 (by rw [chanDecim_default]; omega)
      (by rw [audioDecim_default]; omega)]
    rw [maxAbs_replicate_zero, fdiv_zero_pos]

/-- C2 amended: for every all-zero capture window (any valid configuration,
window longer than the channel decimation factor), every stage up to
normalization yields an all-zero signal, and the normalization then divides
by zero: decode_fm returns a buffer of platform-defined (nan-cast) values
of the expected length, not an all-zero buffer; no guard skips the
scaling. -/
theorem c2_amended (rate offset k : ℕ) (h1 : 0 < chanDecim rate)
    (h2 : 0 < audioDecim rate) (h3 : chanDecim rate < k) :
    decode_fm rate offset (List.replicate k 0) =
      Except.ok (List.replicate (outLen k (chanDecim rate) (audioDecim rate)) none) :=
  decode_fm_zero_run rate offset k h1 h2 h3

/-- C2 amended, witness at the default configuration and window length
1024. -/
theorem c2_amended_witness :
    (0 < chanDecim 1200000 ∧ 0 < audioDecim 1200000 ∧ chanDecim 1200000 < 1024) ∧
      decode_fm 1200000 250000 (List.replicate 1024 0) =
        Except.ok (List.replicate
          (outLen 1024 (chanDecim 1200000) (audioDecim 1200000)) none) :=
  ⟨⟨by rw [chanDecim_default]; omega, by rw [audioDecim_default]; omega,
      by rw [chanDecim_default]; omega⟩,
    c2_amended 1200000 250000 1024 (by rw [chanDecim_default]; omega)
      (by rw [audioDecim_default]; omega) (by rw [chanDecim_default]; omega)⟩

/-- C3 counterexample: decode_fm is not free of side effects on its input:
line 64 multiplies the caller's array in place, so after decode_fm returns
on the window [1, 1] (default rate 1200000 and offset 250000) the array
holds [1, exp(-2 pi i 5/24)], which differs from [1, 1]. -/
theorem c3_mutation_counterexample :
    (inputAfter 1200000 250000 [1, 1]).length = 2 ∧
      inputAfter 1200000 250000 [1, 1] ≠ [1, 1] := by
  refine ⟨shiftRun_length _ 0 [1, 1], ?_⟩
  intro h
  unfold inputAfter shiftStage at h
  simp only [shiftRun, Nat.cast_zero, Nat.cast_one, mul_zero, Complex.exp_zero, mul_one,
    one_mul, zero_add, List.cons.injEq, and_true] at h
  exact exp_shiftFactor_ne_one h.2

/-- C3 amended: decode_fm mutates the caller's input array in place: after
it returns, the array holds the frequency-shifted samples - a list of the
same length whose samples have the same magnitudes as the originals - and
no other caller state is modified. -/
theorem c3_amended (rate offset : ℕ) (s : List ℂ) :
    (inputAfter rate offset s).length = s.length ∧
      (inputAfter rate offset s).map Complex.abs = s.map Complex.abs := by
  unfold inputAfter shiftStage
  exact ⟨shiftRun_length _ 0 s, shiftRun_abs offset rate 0 s⟩

/-- C4 counterexample: with duration 1/2000 s at rate 1200000 the window
size n rounds to zero, and the assembler does not fail fast: on the first
arriving chunk it yields an empty capture window (and raises no
configuration error). -/
theorem c4_zero_window_counterexample :
    mkN (1 / 2000) 1200000 = 0 ∧
      windows 0 [List.replicate 1024 (0 : ℂ)] = [[]] := by
  constructor
  · norm_num [mkN]
  · rw [windows, streamRun_zero_n]
    rfl

/-- C4 amended: if the computed window size n is zero, the assembler does
not fail fast with a configuration error: it yields one empty capture
window per arriving chunk. -/
theorem c4_amended {α : Type} (cs : List (List α)) :
    windows 0 cs = List.replicate cs.length [] := by
  rw [windows, streamRun_zero_n]

/-- C5 counterexample: with window size n = 1024 and two 1536-sample
chunks, the second yielded window contains 512 samples captured at
frequency index 0 (carried over in the residual buffer from before the
retune) and 512 samples captured at frequency index 1: not all samples of
one window were captured at the same center frequency. -/
theorem c5_mixed_window_counterexample :
    ∃ w ∈ (scanRun 1024 (fun i => i) (⟨[], 0⟩ : ScanSt ℕ Unit)
        [List.replicate 1536 (), List.replicate 1536 ()]).1,
      ∃ p ∈ w, ∃ q ∈ w, p.1 ≠ q.1 := by
  rw [scanRun_mix]
  refine ⟨List.replicate 512 ((0 : ℕ), ()) ++ List.replicate 512 ((1 : ℕ), ()),
    List.mem_cons_of_mem _ (List.mem_cons_self _ _),
    ((0 : ℕ), ()), List.mem_append_left _ (List.mem_replicate.mpr ⟨by omega, rfl⟩),
    ((1 : ℕ), ()), List.mem_append_right _ (List.mem_replicate.mpr ⟨by omega, rfl⟩),
    by omega⟩

/-- C5 amended: the controller issues exactly one retune per yielded
window - the frequency index advances only when a window is completed,
never between chunk arrivals that complete no window - but a yielded
window can contain samples captured at earlier frequencies, retained in
the assembler's residual buffer from before the most recent retunes. -/
theorem c5_amended {F α : Type} (n : ℕ) (freqs : ℕ → F) (st : ScanSt F α)
    (cs : List (List α)) :
    (scanRun n freqs st cs).2.fi = st.fi + (scanRun n freqs st cs).1.length :=
  scanRun_retunes n freqs cs st

/-- C6: for every nonnegative duration and every rate, each window the
assembler yields has length exactly n = floor(duration * rate) rounded
down to a multiple of 1024; n is a multiple of 1024 and at most
duration * rate; and the windows are consumed in order from the chunk
stream with the remainder retained in the carry buffer (the concatenation
of the yielded windows followed by the final carry equals the
concatenation of all chunks). -/
theorem c6_window_exactness (seconds : ℚ) (rate : ℕ) (cs : List (List ℂ))
    (hs : 0 ≤ seconds) :
    (windows (mkN seconds rate) cs).map List.length =
        List.replicate (windows (mkN seconds rate) cs).length (mkN seconds rate) ∧
      1024 ∣ mkN seconds rate ∧
      ((mkN seconds rate : ℕ) : ℚ) ≤ seconds * (rate : ℚ) ∧
      (windows (mkN seconds rate) cs).flatten ++
          (streamRun (mkN seconds rate) [] cs).2 = cs.flatten := by
  refine ⟨streamRun_lengths _ cs [], ?_, ?_, ?_⟩
  · unfold mkN
    have h := Nat.mod_add_div ((⌊seconds * (rate : ℚ)⌋).toNat) 1024
    exact ⟨(⌊seconds * (rate : ℚ)⌋).toNat / 1024, by omega⟩
  · have hq : (0 : ℚ) ≤ seconds * (rate : ℚ) := mul_nonneg hs (by positivity)
    have hf : (0 : ℤ) ≤ ⌊seconds * (rate : ℚ)⌋ := Int.floor_nonneg.mpr hq
    have h1 : (((⌊seconds * (rate : ℚ)⌋).toNat : ℕ) : ℚ) ≤ seconds * (rate : ℚ) := by
      have h2 : (((⌊seconds * (rate : ℚ)⌋).toNat : ℕ) : ℚ) =
          ((⌊seconds * (rate : ℚ)⌋ : ℤ) : ℚ) := by
        exact_mod_cast congrArg (fun z : ℤ => (z : ℚ)) (Int.toNat_of_nonneg hf)
      rw [h2]
      exact Int.floor_le _
    calc ((mkN seconds rate : ℕ) : ℚ)
        ≤ (((⌊seconds * (rate : ℚ)⌋).toNat : ℕ) : ℚ) := by
          unfold mkN
          exact_mod_cast Nat.sub_le _ _
      _ ≤ seconds * (rate : ℚ) := h1
  · simpa using streamRun_conserve (mkN seconds rate) cs []

/-- C6 witness: duration 2 s at rate 512 Hz gives n = 1024; one 1100-sample
chunk yields one 1024-sample window with 76 samples retained. -/
theorem c6_window_exactness_witness :
    (0 : ℚ) ≤ 2 ∧
      ((windows (mkN 2 512) [List.replicate 1100 (0 : ℂ)]).map List.length =
          List.replicate (windows (mkN 2 512) [List.replicate 1100 (0 : ℂ)]).length
            (mkN 2 512) ∧
        1024 ∣ mkN 2 512 ∧
        ((mkN 2 512 : ℕ) : ℚ) ≤ 2 * ((512 : ℕ) : ℚ) ∧
        (windows (mkN 2 512) [List.replicate 1100 (0 : ℂ)]).flatten ++
            (streamRun (mkN 2 512) [] [List.replicate 1100 (0 : ℂ)]).2 =
          ([List.replicate 1100 (0 : ℂ)] : List (List ℂ)).flatten) :=
  ⟨by norm_num, c6_window_exactness 2 512 [List.replicate 1100 0] (by norm_num)⟩

/-- C7 counterexample: a non-silent input window (its first sample is
nonzero) whose demodulated signal is identically zero: the normalization
divides by zero exactly as in the silent case, decode_fm returns a buffer
of platform-defined (nan-cast) values, and the peak-amplitude contract
max(abs(output)) = 10000 fails. -/
theorem c7_nonsilent_nan_counterexample :
    (∃ c ∈ cexInput 1024, c ≠ 0) ∧
      decode_fm 1200000 250000 (cexInput 1024) = Except.ok (List.replicate 43 none) ∧
      ¬ peakOk (List.replicate 43 (none : Option ℤ)) := by
  refine ⟨?_, ?_, ?_⟩
  · unfold cexInput unshift
    exact ⟨_, List.mem_cons_self _ _,
      mul_ne_zero cexInput_head_ne_zero (Complex.exp_ne_zero _)⟩
  · rw [decode_fm_run 1200000 250000 _ (by rw [chanDecim_default]; omega)
      (by rw [audioDecim_default]; omega)
      (by
        rw [cexInput_prenorm]
        intro hcon
        have hc2 := congrArg List.length hcon
        simp at hc2)]
    rw [cexInput_prenorm, normStage_zero]
  · intro hpk
    obtain ⟨v, hv, k, hk, _⟩ := hpk.2
    rw [List.eq_of_mem_replicate hv] at hk
    exact Option.noConfusion hk

/-- C7 amended: the peak-amplitude contract holds at the normalization
stage: whenever the demodulated signal entering normalization is nonempty
and not identically zero, every sample of the normalized int16 buffer is
defined with magnitude at most 10000 and some sample reaches magnitude
10000 (within rounding tolerance 1).  A non-silent input window does not
guarantee this precondition, as the counterexample shows. -/
theorem c7_amended (s5 : List ℝ) (hne : s5 ≠ []) (hm : maxAbs s5 ≠ 0) :
    peakOk (normStage s5) :=
  normStage_peak s5 hne hm

/-- C7 amended, witness on the one-sample demodulated signal [3]. -/
theorem c7_amended_witness :
    (([(3 : ℝ)] ≠ []) ∧ maxAbs [(3 : ℝ)] ≠ 0) ∧ peakOk (normStage [(3 : ℝ)]) :=
  ⟨⟨by simp, by norm_num [maxAbs]⟩,
    c7_amended [3] (by simp) (by norm_num [maxAbs])⟩

/-- C8: whenever both decimation factors are nonzero and the window is
longer than the channel factor, decode_fm succeeds and its output length
is the deterministic chain outLen: ceil(n / d1), minus one for the polar
discriminator, then ceil(. / d2); in particular for window length 1177600
at rate 1200000 (d1 = 6, d2 = 4) the chain gives 49067. -/
theorem c8_output_length (rate offset : ℕ) (s : List ℂ) (h1 : 0 < chanDecim rate)
    (h2 : 0 < audioDecim rate) (h3 : chanDecim rate < s.length) :
    (∃ out, decode_fm rate offset s = Except.ok out ∧
        out.length = outLen s.length (chanDecim rate) (audioDecim rate)) ∧
      outLen 1177600 (chanDecim 1200000) (audioDecim 1200000) = 49067 := by
  constructor
  · have hlen := prenorm_length rate offset h1 h2 s
    have hpos := outLen_pos s.length _ _ h1 h2 h3
    refine ⟨normStage (prenorm rate offset s), ?_, ?_⟩
    · exact decode_fm_run rate offset s (by omega) (by omega)
        (by
          intro hcon
          rw [hcon] at hlen
          simp at hlen
          omega)
    · rw [normStage_length, hlen]
  · rw [chanDecim_default, audioDecim_default]
    norm_num [outLen, ceilDiv]

/-- C8 witness at the default configuration on a 1024-sample window. -/
theorem c8_output_length_witness :
    (0 < chanDecim 1200000 ∧ 0 < audioDecim 1200000 ∧
        chanDecim 1200000 < (List.replicate 1024 (0 : ℂ)).length) ∧
      ((∃ out, decode_fm 1200000 250000 (List.replicate 1024 0) = Except.ok out ∧
          out.length = outLen (List.replicate 1024 (0 : ℂ)).length (chanDecim 1200000)
            (audioDecim 1200000)) ∧
        outLen 1177600 (chanDecim 1200000) (audioDecim 1200000) = 49067) :=
  ⟨⟨by rw [chanDecim_default]; omega, by rw [audioDecim_default]; omega,
      by rw [chanDecim_default]; norm_num⟩,
    c8_output_length 1200000 250000 (List.replicate 1024 0)
      (by rw [chanDecim_default]; omega) (by rw [audioDecim_default]; omega)
      (by rw [chanDecim_default]; norm_num)⟩

/-- C9: a zero decimation factor - rate below 200000 Hz, or a zero audio
factor - makes decode_fm raise (ZeroDivisionError inside the decimation
filter design, exactly where 0.8 / q is computed): the factor is never
coerced to 1 and no PCM buffer is produced. -/
theorem c9_zero_decimation_error (rate offset : ℕ) (s : List ℂ)
    (h : chanDecim rate = 0 ∨ audioDecim rate = 0) :
    decode_fm rate offset s = Except.error PyErr.zeroDivisionError := by
  unfold decode_fm
  rcases h with h | h
  · rw [if_pos h]
  · by_cases h1 : chanDecim rate = 0
    · rw [if_pos h1]
    · rw [if_neg h1, if_pos h]

/-- C9 witness: at rate 100000 Hz the channel decimation factor is 0 and
decode_fm raises. -/
theorem c9_zero_decimation_error_witness :
    (chanDecim 100000 = 0 ∨ audioDecim 100000 = 0) ∧
      decode_fm 100000 250000 [] = Except.error PyErr.zeroDivisionError :=
  ⟨Or.inl (by norm_num [chanDecim]),
    c9_zero_decimation_error 100000 250000 []
      (Or.inl (by norm_num [chanDecim]))⟩

/-- C10: set_freq commands the hardware frequency int(f * 1000000) - offset,
that is, exactly offset Hz below the selected integer frequency, with the
offset field unchanged; and the stage-1 correction of decode_fm multiplies
that same offset back out: a tone at the offset frequency (the image of
the all-ones list under the inverse shift) is recentered exactly to DC by
the shift stage. -/
theorem c10_offset_consistency (r : Radio) (f : ℚ) (k : ℕ) :
    (r.set_freq f).2 + (r.offset : ℤ) = pyInt (f * 1000000) ∧
      (r.set_freq f).1.offset = r.offset ∧
      shiftStage r.offset r.rate
          (unshift (shiftFactor r.offset r.rate) 0 (List.replicate k 1)) =
        List.replicate k 1 := by
  refine ⟨?_, rfl, ?_⟩
  · unfold Radio.set_freq
    ring
  · unfold shiftStage
    exact shiftRun_unshift _ 0 _

end SpiritBox
